import Mathlib

/-!
Verification development for the signalk-whatif-helper plugin.

The embedding below translates the core subsystem of the repository into
Lean definitions:

* `PathManager.setValue` source-label derivation (src/PathManager.ts),
* `PathManager.getAllPaths` / `extractPaths` / filtering / sorting,
* `PathManager.createPath` / `getCreatedPaths` / `isCreatedPath`,
* `PutHandlerManager` registration state machine (src/PutHandlerManager.ts),
* the PUT handler closure installed by `registerHandler`,
* `WebSocketServer.handleDelta` / `handleMessage` / `sendCurrentValues` /
  `send` (src/WebSocketServer.ts).

JavaScript runtime values are modelled by the inductive `JSVal`
(undefined, null, booleans, numbers as integers -- the claims under
study never compute with numbers, only pass them through -- strings,
and objects as association lists of fields).  JavaScript truthiness,
property access, optional chaining and the logical-or operator are
modelled by `jsvTruthy`, `jsGetField` and `jsOrVal`.  Strings are Lean
`String`s; the JavaScript string operations `endsWith`, `slice(0, -n)`,
`includes` and `toLowerCase` are modelled on the underlying character
lists.  `Map` objects are modelled as association lists in insertion
order, matching the iteration-order semantics of JavaScript `Map`.
-/

/-- Model of a JavaScript runtime value.  Numbers are modelled as
integers: every claim treats values opaquely (passed through, compared
with null/undefined), never arithmetically. -/
inductive JSVal where
  | undefined : JSVal
  | null : JSVal
  | bool : Bool → JSVal
  | num : Int → JSVal
  | str : String → JSVal
  | obj : List (String × JSVal) → JSVal

/-- JavaScript truthiness of a value: undefined, null, false, 0 and the
empty string are falsy, everything else is truthy. -/
def jsvTruthy : JSVal → Bool
  | .undefined => false
  | .null => false
  | .bool b => b
  | .num n => n != 0
  | .str s => s ≠ ""
  | .obj _ => true

/-- Property access `v.k` (also modelling the optional chain `v?.k`):
field lookup on objects, undefined on every non-object.  Accessing a
property of a JavaScript string or number that is not defined also
yields undefined, which this covers. -/
def jsGetField : JSVal → String → JSVal
  | .obj fields, k => (fields.lookup k).getD .undefined
  | _, _ => .undefined

/-- The JavaScript expression `a || b`: `a` when truthy, else `b`. -/
def jsOrVal (a b : JSVal) : JSVal :=
  if jsvTruthy a then a else b

/-- JavaScript `s.includes(sub)`: `sub` occurs as a contiguous substring
of `s`. -/
def jsIncludes (s sub : String) : Bool :=
  decide (sub.data <:+: s.data)

/-! ### Source-label derivation (PathManager.setValue) -/

/-- The reserved source label of the plugin (constant in
PathManager.ts and PutHandlerManager.ts). -/
def SOURCE_LABEL : String := "whatif-helper"

/-- The suffix appended to derived source labels: the code builds the
template literal consisting of a dot followed by SOURCE_LABEL. -/
def whatifSuffix : String := "." ++ SOURCE_LABEL

/-- The while loop of `setValue` that repeatedly strips a trailing
`whatifSuffix`:
`while (originalSource.endsWith(whatifSuffix)) originalSource = originalSource.slice(0, -whatifSuffix.length)`.
JavaScript `endsWith` is modelled by `List.isSuffixOf` on the character
list and `slice(0, -n)` by dropping the last `n` characters.  The loop
is given the length of the string as fuel; each iteration removes
`whatifSuffix.length` characters, so the fuel never runs out before the
loop condition fails. -/
def stripSuffixLoop : Nat → List Char → List Char
  | 0, s => s
  | n + 1, s =>
    if whatifSuffix.data.isSuffixOf s then
      stripSuffixLoop n (s.take (s.length - whatifSuffix.data.length))
    else s

/-- Strip every trailing occurrence of `whatifSuffix` from a string. -/
def stripWhatifAll (s : String) : String :=
  ⟨stripSuffixLoop s.data.length s.data⟩

/-- The source-label computation of `PathManager.setValue`.
`explicit` models the `source` argument and `currentSource` models the
value of `currentData.$source || currentData.source?.label` read from
the tree (`none` when `currentData` is falsy, the read throws, or
yields no source at all).  The guards `if (source)` and
`if (originalSource)` are JavaScript truthiness tests, so the empty
string falls through to the default just like an absent value. -/
def deriveSourceLabel (explicit : Option String) (currentSource : Option String) : String :=
  match explicit with
  | some src =>
    if src = "" then deriveAuto currentSource else src
  | none => deriveAuto currentSource
where
  deriveAuto : Option String → String
    | some orig =>
      if orig = "" then SOURCE_LABEL
      else stripWhatifAll orig ++ whatifSuffix
    | none => SOURCE_LABEL

/-! ### PathManager: snapshots, tree walk, filtering, sorting -/

/-- The `PathInfo` record of types.ts as built by PathManager.  `meta`
is an optional property (absent vs present), the other fields are
always assigned (possibly with undefined values). -/
structure PathInfo where
  path : String
  value : JSVal
  timestamp : JSVal
  source : JSVal
  meta : Option JSVal

/-- The `PathFilter` record of types.ts: all four fields optional. -/
structure PathFilter where
  search : Option String := none
  hasValue : Option Bool := none
  hasMeta : Option Bool := none
  baseUnit : Option String := none
deriving DecidableEq

/-- Access `m?.k` where `m` is the optional `meta` property. -/
def jsGetFieldOpt (m : Option JSVal) (k : String) : JSVal :=
  match m with
  | some v => jsGetField v k
  | none => .undefined

/-- Fields contributed by spreading a value in an object literal:
spreading an object contributes its fields, spreading undefined or null
contributes nothing.  (The code only ever spreads metadata objects and
undefined.) -/
def spreadFields : Option JSVal → List (String × JSVal)
  | some (.obj fs) => fs
  | _ => []

/-- The object literal `{...a, ...b}` on field lists: keys of `a` (in
order, with the value overridden by `b` when `b` also has the key),
followed by the keys of `b` that are not in `a`. -/
def jsMergeFields (a b : List (String × JSVal)) : List (String × JSVal) :=
  a.map (fun pr => (pr.1, (b.lookup pr.1).getD pr.2))
    ++ b.filter (fun pr => (a.lookup pr.1).isNone)

/-- The created-paths registry: `Map<string, PathMeta>` in insertion
order; the metadata payload is the field list of the meta object. -/
def CreatedPaths : Type := List (String × List (String × JSVal))

/-- The skip list of `extractPaths`. -/
def skipProps : List String :=
  ["meta", "timestamp", "$source", "source", "values", "pgn", "sentence"]

/-- The optional `meta` property attached to a leaf snapshot by
`extractPaths`: the truthy `obj.meta` field if any, then merged with
custom metadata from the created-paths registry via
`{...pathInfo.meta, ...customMeta}`. -/
def leafMeta (cp : List (String × List (String × JSVal)))
    (fields : List (String × JSVal)) (currentPath : String) : Option JSVal :=
  let fromTree := (fields.lookup "meta").getD .undefined
  let meta0 : Option JSVal := if jsvTruthy fromTree then some fromTree else none
  match cp.lookup currentPath with
  | some customMeta => some (.obj (jsMergeFields (spreadFields meta0) customMeta))
  | none => meta0

mutual

/-- `PathManager.extractPaths`: recursive structural walk over the
nested tree value.  Null, undefined and non-objects are ignored; an
object with a `value` key yields a leaf snapshot; recursion continues
into object-valued fields whose key is neither in `skipProps` nor
`value`.  The leaf is pushed before the children, matching the order in
which the code appends to the shared `paths` array. -/
def extractPaths (cp : List (String × List (String × JSVal))) :
    JSVal → String → List PathInfo
  | .obj fields, currentPath =>
    (if (fields.lookup "value").isSome then
      [{ path := currentPath
         value := (fields.lookup "value").getD .undefined
         timestamp := (fields.lookup "timestamp").getD .undefined
         source := jsOrVal ((fields.lookup "$source").getD .undefined)
           (jsGetField ((fields.lookup "source").getD .undefined) "label")
         meta := leafMeta cp fields currentPath }]
    else [])
      ++ extractChildren cp fields currentPath
  | _, _ => []

/-- The `for (const key of Object.keys(obj))` loop of `extractPaths`:
skip structural keys and `value`, recurse into truthy object children
with the extended dotted path (a falsy, i.e. empty, `currentPath` is
replaced by the bare key). -/
def extractChildren (cp : List (String × List (String × JSVal))) :
    List (String × JSVal) → String → List PathInfo
  | [], _ => []
  | (k, child) :: rest, currentPath =>
    (if k ∈ skipProps ∨ k = "value" then []
     else
       match child with
       | .obj fs =>
         extractPaths cp (.obj fs)
           (if currentPath = "" then k else currentPath ++ "." ++ k)
       | _ => [])
      ++ extractChildren cp rest currentPath

end

/-- JavaScript `s.toLowerCase()`: lower-case every character. -/
def jsToLower (s : String) : String :=
  ⟨s.data.map Char.toLower⟩

/-- The arrow function of the search filter:
`p.path.toLowerCase().includes(searchLower)`. -/
def searchMatches (searchLower : String) (p : PathInfo) : Bool :=
  jsIncludes (jsToLower p.path) searchLower

/-- The arrow function of the hasValue filter:
`p.value !== null && p.value !== undefined`. -/
def valueNotNil (p : PathInfo) : Bool :=
  match p.value with
  | .null => false
  | .undefined => false
  | _ => true

/-- The arrow function of the hasMeta filter: `p.meta !== undefined`. -/
def metaIsPresent (p : PathInfo) : Bool := p.meta.isSome

/-- The arrow function of the baseUnit filter:
`p.meta?.units === filter.baseUnit` (strict equality against a
string). -/
def unitsEqual (u : String) (p : PathInfo) : Bool :=
  match jsGetFieldOpt p.meta "units" with
  | .str x => x == u
  | _ => false

/-- The filter block of `PathManager.getAllPaths`, applied in source
order: search, hasValue, hasMeta, baseUnit.  The guards
`if (filter.search)` and `if (filter.baseUnit)` are truthiness tests
(an empty string skips the filter); `hasValue` and `hasMeta` are
compared with `=== true`. -/
def applyFilters : Option PathFilter → List PathInfo → List PathInfo
  | none, paths => paths
  | some f, paths =>
    let l1 := match f.search with
      | some s =>
        if s = "" then paths
        else paths.filter (searchMatches (jsToLower s))
      | none => paths
    let l2 := if f.hasValue = some true then l1.filter valueNotNil else l1
    let l3 := if f.hasMeta = some true then l2.filter metaIsPresent else l2
    match f.baseUnit with
    | some u =>
      if u = "" then l3
      else l3.filter (unitsEqual u)
    | none => l3

/-- Code-point lexicographic order on the paths: the order the spec
calls "lexicographic".  The comparator the program actually passes to
the sort is `(a, b) => a.path.localeCompare(b.path)`, and
`localeCompare` with no arguments is the host's default-locale (ICU)
collation -- an external input to the program, abstracted by
`getAllPathsWith` below.  This code-point order is one admissible total
collation; `getAllPaths` instantiates the pipeline with it, and every
use of `getAllPaths` in the theorems below depends only on
order-insensitive facts (membership, permutation, message content),
which hold identically under any collation. -/
def pathLe (a b : PathInfo) : Bool := a.path ≤ b.path

/-- `PathManager.getAllPaths` with the comparator of the final sort
abstracted: walk the full tree snapshot obtained from the host (the
`vesselData` parameter stands for the nested value the code obtains
from `getPath('vessels.self')`, `getSelfPath('')` or the HTTP fallback
-- external collaborators), apply the filters, and sort with the
host-provided collation `localeLe` (the behaviour of
`a.path.localeCompare(b.path)` under the default locale).  A non-object
`vesselData` yields no snapshots, exactly as in the code where the walk
is guarded by a typeof-object test. -/
def getAllPathsWith (localeLe : PathInfo → PathInfo → Bool)
    (cp : List (String × List (String × JSVal)))
    (vesselData : JSVal) (filter : Option PathFilter) : List PathInfo :=
  ((applyFilters filter (extractPaths cp vesselData "")).mergeSort localeLe)

/-- `PathManager.getAllPaths` instantiated with the code-point
stand-in collation (see `pathLe`). -/
def getAllPaths (cp : List (String × List (String × JSVal)))
    (vesselData : JSVal) (filter : Option PathFilter) : List PathInfo :=
  ((applyFilters filter (extractPaths cp vesselData "")).mergeSort pathLe)

/-- A collation that lower-cases before comparing code points.  On the
sibling paths "maximum" and "maxSpeed" this reproduces the documented
behaviour of the default-locale ICU collation behind `localeCompare`:
the primary weight of i sorts before that of S, so "maximum" precedes
"maxSpeed", the opposite of code-point order.  It is total and
transitive, hence a legitimate host collation. -/
def caseFoldPathLe (a b : PathInfo) : Bool :=
  jsToLower a.path ≤ jsToLower b.path

/-- JavaScript `Map.set`: replace the value in place when the key is
present, otherwise append the new entry. -/
def mapSet {α : Type} (l : List (String × α)) (k : String) (v : α) :
    List (String × α) :=
  if (l.lookup k).isSome then
    l.map (fun pr => if pr.1 = k then (k, v) else pr)
  else l ++ [(k, v)]

/-- The created-paths registry effect of `PathManager.createPath`:
`if (meta) this.createdPaths.set(path, meta)`.  The subsequent
`setValue` call and the metadata delta are submissions to the external
change bus and never touch the registry, so the registry state is the
whole PathManager state relevant here. -/
def createPath (cp : List (String × List (String × JSVal)))
    (path : String) (_value : JSVal)
    (meta : Option (List (String × JSVal))) :
    List (String × List (String × JSVal)) :=
  match meta with
  | some m => mapSet cp path m
  | none => cp

/-- `PathManager.getCreatedPaths`: the keys of the registry. -/
def getCreatedPaths (cp : List (String × List (String × JSVal))) : List String :=
  cp.map (·.1)

/-- `PathManager.isCreatedPath`. -/
def isCreatedPath (cp : List (String × List (String × JSVal))) (path : String) : Bool :=
  (cp.lookup path).isSome

/-! ### PutHandlerManager -/

/-- The `PutHandlerInfo` record of types.ts. -/
structure PutHandlerInfo where
  path : String
  registeredAt : String
  acceptAllSources : Bool
deriving DecidableEq

/-- The mutable state of a `PutHandlerManager`: the two `Map`s, as
association lists in insertion order.  The opaque deregistration
capabilities returned by `app.registerPutHandler` are modelled by
natural-number tokens. -/
structure PHMState where
  handlers : List (String × PutHandlerInfo)
  unregisterFunctions : List (String × Nat)
deriving DecidableEq

/-- The state of a freshly constructed manager: both maps empty. -/
def initPHM : PHMState := ⟨[], []⟩

/-- `PutHandlerManager.registerHandler`.  An early return leaves the
state untouched when `handlers.has(path)`; otherwise the handler is
installed with the host (which hands back the capability `cap`, an
external input, like the timestamp `now` produced by
`new Date().toISOString()`) and both maps gain an entry for `path`.
`acceptAll` models `options.acceptAllSources`, defaulted by `?? false`. -/
def registerHandler (s : PHMState) (path : String) (acceptAll : Option Bool)
    (now : String) (cap : Nat) : PHMState :=
  if (s.handlers.lookup path).isSome then s
  else
    { handlers := s.handlers ++
        [(path, { path := path, registeredAt := now,
                  acceptAllSources := acceptAll.getD false })]
      unregisterFunctions := s.unregisterFunctions ++ [(path, cap)] }

/-- `PutHandlerManager.unregisterHandler`.  Returns the new state, the
boolean result, and the list of deregistration capabilities invoked. -/
def unregisterHandler (s : PHMState) (path : String) : PHMState × Bool × List Nat :=
  match s.unregisterFunctions.lookup path with
  | none => (s, false, [])
  | some cap =>
    ({ handlers := s.handlers.eraseP (fun pr => pr.1 == path)
       unregisterFunctions := s.unregisterFunctions.eraseP (fun pr => pr.1 == path) },
     true, [cap])

/-- `PutHandlerManager.getHandlers`: the values of the handlers map. -/
def getHandlers (s : PHMState) : List PutHandlerInfo :=
  s.handlers.map (·.2)

/-- `PutHandlerManager.hasPutHandler`. -/
def hasPutHandler (s : PHMState) (path : String) : Bool :=
  (s.handlers.lookup path).isSome

/-- `PutHandlerManager.getHandler`. -/
def getHandler (s : PHMState) (path : String) : Option PutHandlerInfo :=
  s.handlers.lookup path

/-- `PutHandlerManager.unregisterAll`: unregister every key of the
handlers map.  JavaScript `Map` iteration visits keys in insertion
order and deleting the key just visited does not disturb the iterator,
so the loop is the fold of `unregisterHandler` over the key list
snapshot. -/
def unregisterAll (s : PHMState) : PHMState :=
  (s.handlers.map (·.1)).foldl (fun st p => (unregisterHandler st p).1) s

/-- One externally triggered operation on a `PutHandlerManager`. -/
inductive PHMOp where
  | reg (path : String) (acceptAll : Option Bool) (now : String) (cap : Nat)
  | unreg (path : String)
  | unregAll
deriving DecidableEq

/-- Apply one operation. -/
def applyPHMOp (s : PHMState) : PHMOp → PHMState
  | .reg p a now cap => registerHandler s p a now cap
  | .unreg p => (unregisterHandler s p).1
  | .unregAll => unregisterAll s

/-- Run a finite call sequence against a fresh manager. -/
def runPHMOps (ops : List PHMOp) : PHMState :=
  ops.foldl applyPHMOp initPHM

/-! ### The PUT handler closure installed by registerHandler -/

/-- The `PutResult` record of types.ts. -/
structure PutResult where
  state : String
  statusCode : Nat
  message : Option String
deriving DecidableEq

/-- A thrown JavaScript exception: either an `Error` object carrying a
message, or any other thrown value. -/
inductive JSException where
  | errObj (message : String)
  | nonError
deriving DecidableEq

/-- The expression
`error instanceof Error ? error.message : 'Unknown error'`. -/
def jsErrMessage : JSException → String
  | .errObj m => m
  | .nonError => "Unknown error"

/-- Observable behaviour of one invocation of the PUT handler closure:
the `setValue` delegations performed (path and value), the results
passed to the host callback, the returned result, and the promise
rejections left floating by the invocation. -/
structure HandlerRun where
  delegated : List (String × JSVal)
  callbackCalls : List PutResult
  returned : PutResult
  unhandledRejections : List JSException

/-- The handler closure built inside `PutHandlerManager.registerHandler`.
`inject` models the body of the async `pathManager.setValue`, which
either resolves or raises; `registrationPath` is the `path` captured
from the enclosing registration (unused by the body, which works with
the invocation arguments); `hasCallback` models the truthiness of the
host-provided `callback`.  The handler calls
`this.pathManager.setValue(putPath, value)` WITHOUT awaiting it:
`setValue` is an async function, so the call never throws
synchronously -- an exception inside its body rejects the returned
promise, which nothing observes.  The try block therefore always
completes: the handler builds `COMPLETED`/200, passes it to the
callback (when provided) and returns it, whatever the injector did.
The catch branch, which would build `FAILED`/500 with the message
extracted by `jsErrMessage`, is unreachable for injector failures;
those end as unhandled rejections, recorded here in
`unhandledRejections`. -/
def runPutHandler (inject : String → JSVal → Except JSException Unit)
    (_registrationPath : String) (_context : String) (putPath : String)
    (v : JSVal) (hasCallback : Bool) : HandlerRun :=
  let r : PutResult := { state := "COMPLETED", statusCode := 200, message := none }
  { delegated := [(putPath, v)]
    callbackCalls := if hasCallback then [r] else []
    returned := r
    unhandledRejections :=
      match inject putPath v with
      | .ok _ => []
      | .error e => [e] }

/-! ### WebSocketServer -/

/-- The `WebSocket.OPEN` ready-state constant. -/
def WS_OPEN : Nat := 1

/-- One connected observer (`WhatIfClient`): its id, the ready state of
its socket, and its subscription set -- a JavaScript `Set<string>`,
modelled as a duplicate-free list in insertion order. -/
structure Client where
  id : String
  readyState : Nat
  subscriptions : List String
deriving DecidableEq

/-- A server-to-observer message (`WSUpdate` of types.ts). -/
inductive WSUpdate where
  | full (paths : List PathInfo)
  | update (path : PathInfo)
  | error (message : String)

/-- `WebSocketServer.send`: the message is written only when the
connection ready state is OPEN; otherwise nothing is sent (no queueing,
no retry).  The result is the list of (client, message) deliveries that
actually happened. -/
def wsSend (c : Client) (m : WSUpdate) : List (Client × WSUpdate) :=
  if c.readyState = WS_OPEN then [(c, m)] else []

/-- The snapshot built by `handleDelta` from a change event: path,
value, timestamp and `$source || source?.label`; no meta property. -/
def deltaPathInfo (delta : JSVal) (p : String) : PathInfo :=
  { path := p
    value := jsGetField delta "value"
    timestamp := jsGetField delta "timestamp"
    source := jsOrVal (jsGetField delta "$source")
      (jsGetField (jsGetField delta "source") "label")
    meta := none }

/-- The `for (const client of this.clients)` loop of `handleDelta`:
deliver the update to each client whose subscription set has the exact
path or the wildcard. -/
def broadcastTo (info : PathInfo) (p : String) : List Client → List (Client × WSUpdate)
  | [] => []
  | c :: cs =>
    (if p ∈ c.subscriptions ∨ "*" ∈ c.subscriptions then
       wsSend c (.update info)
     else [])
      ++ broadcastTo info p cs

/-- `WebSocketServer.handleDelta`: ignore a falsy delta or a delta with
a falsy path (`if (!delta || !delta.path) return`), otherwise build the
snapshot and fan it out.  The delta arriving from the self bus carries
its path as a string; a falsy delta or a missing/empty path is modelled
by `jsGetField` yielding undefined or the empty string. -/
def handleDelta (clients : List Client) (delta : JSVal) : List (Client × WSUpdate) :=
  match jsGetField delta "path" with
  | .str p =>
    if p = "" then []
    else broadcastTo (deltaPathInfo delta p) p clients
  | _ => []

/-- The constraint imposed by an optional search filter: path contains
the (lower-cased) search string case-insensitively; no constraint when
absent. -/
def searchPred (fs : Option String) (p : PathInfo) : Bool :=
  match fs with
  | some s => searchMatches (jsToLower s) p
  | none => true

def hasValuePred (fv : Option Bool) (p : PathInfo) : Bool :=
  match fv with
  | some true => valueNotNil p
  | _ => true

def hasMetaPred (fm : Option Bool) (p : PathInfo) : Bool :=
  match fm with
  | some true => metaIsPresent p
  | _ => true

def baseUnitPred (fb : Option String) (p : PathInfo) : Bool :=
  match fb with
  | some u => unitsEqual u p
  | none => true

/-- The conjunction of the individual filter predicates of the spec:
path contains the search string case-insensitively, value is neither
null nor undefined when hasValue is requested, metadata is present when
hasMeta is requested, and `meta.units` equals the base unit exactly.
Fields that are not given impose no constraint. -/
def matchesFilter (f : PathFilter) (p : PathInfo) : Bool :=
  searchPred f.search p && hasValuePred f.hasValue p
    && hasMetaPred f.hasMeta p && baseUnitPred f.baseUnit p

/-- Structural invariant of the `PutHandlerManager`: the two maps have
literally the same key list, the keys are duplicate-free, and each
stored record carries its own key as its `path` field. -/
def PHMInv (s : PHMState) : Prop :=
  s.handlers.map (fun pr => pr.1) = s.unregisterFunctions.map (fun pr => pr.1)
  ∧ (s.handlers.map (fun pr => pr.1)).Nodup
  ∧ ∀ pr ∈ s.handlers, pr.2.path = pr.1

/-! ### Lemmas about suffix stripping -/

theorem strData_append (a b : String) : (a ++ b).data = a.data ++ b.data := rfl

theorem whatifSuffix_data_length : whatifSuffix.data.length = 14 := rfl

/-- Enough fuel guarantees the loop result no longer ends with the
suffix: every iteration removes fourteen characters but only one unit
of fuel, so the loop always stops because the condition fails. -/
theorem stripSuffixLoop_not_endsWith :
    ∀ (n : Nat) (s : List Char), s.length ≤ n →
      whatifSuffix.data.isSuffixOf (stripSuffixLoop n s) = false := by
  intro n
  induction n with
  | zero =>
    intro s hs
    have hnil : s = [] := List.eq_nil_of_length_eq_zero (Nat.le_zero.mp hs)
    subst hnil
    decide
  | succ n ih =>
    intro s hs
    by_cases h : whatifSuffix.data.isSuffixOf s = true
    · have hlen : whatifSuffix.data.length ≤ s.length :=
        (List.isSuffixOf_iff_suffix.mp h).length_le
      rw [whatifSuffix_data_length] at hlen
      simp only [stripSuffixLoop, h, if_true]
      apply ih
      have : (s.take (s.length - whatifSuffix.data.length)).length =
          min (s.length - whatifSuffix.data.length) s.length := List.length_take _ _
      rw [this, whatifSuffix_data_length]
      omega
    · have h' : whatifSuffix.data.isSuffixOf s = false := by
        cases hb : whatifSuffix.data.isSuffixOf s
        · rfl
        · exact absurd hb h
      simp only [stripSuffixLoop, h', if_false]
      exact h'

/-- When the loop condition fails at entry the loop is the identity. -/
theorem stripSuffixLoop_of_not_endsWith (n : Nat) (s : List Char)
    (h : whatifSuffix.data.isSuffixOf s = false) :
    stripSuffixLoop n s = s := by
  cases n with
  | zero => rfl
  | succ n => simp [stripSuffixLoop, h]

/-- Stripping never ends with the suffix. -/
theorem stripWhatifAll_not_endsWith (s : String) :
    whatifSuffix.data.isSuffixOf (stripWhatifAll s).data = false :=
  stripSuffixLoop_not_endsWith s.data.length s.data (Nat.le_refl _)

/-- Appending the suffix to an already-stripped string and stripping
again recovers the stripped string. -/
theorem stripWhatifAll_append_suffix (s : String) :
    stripWhatifAll (stripWhatifAll s ++ whatifSuffix) = stripWhatifAll s := by
  set t : List Char := (stripWhatifAll s).data with ht
  have hts : stripWhatifAll s = ⟨t⟩ := rfl
  have hnot : whatifSuffix.data.isSuffixOf t = false := stripWhatifAll_not_endsWith s
  have hdata : (stripWhatifAll s ++ whatifSuffix).data = t ++ whatifSuffix.data := rfl
  show String.mk (stripSuffixLoop (stripWhatifAll s ++ whatifSuffix).data.length
      (stripWhatifAll s ++ whatifSuffix).data) = stripWhatifAll s
  rw [hdata]
  have hlen : (t ++ whatifSuffix.data).length = t.length + 14 := by
    rw [List.length_append, whatifSuffix_data_length]
  rw [hlen]
  have hsuf : whatifSuffix.data.isSuffixOf (t ++ whatifSuffix.data) = true :=
    List.isSuffixOf_iff_suffix.mpr (List.suffix_append t whatifSuffix.data)
  have hstep : stripSuffixLoop (t.length + 14) (t ++ whatifSuffix.data) =
      stripSuffixLoop (t.length + 13)
        ((t ++ whatifSuffix.data).take
          ((t ++ whatifSuffix.data).length - whatifSuffix.data.length)) := by
    show stripSuffixLoop (t.length + 13 + 1) (t ++ whatifSuffix.data) = _
    simp only [stripSuffixLoop, hsuf, if_true]
  rw [hstep]
  have htake : (t ++ whatifSuffix.data).take
      ((t ++ whatifSuffix.data).length - whatifSuffix.data.length) = t := by
    rw [hlen, whatifSuffix_data_length]
    have : t.length + 14 - 14 = t.length := by omega
    rw [this]
    exact List.take_left t whatifSuffix.data
  rw [htake, stripSuffixLoop_of_not_endsWith _ _ hnot, hts]

/-- A derived label is never the empty string: its character list ends
with the fourteen characters of the suffix. -/
theorem stripWhatifAll_append_suffix_ne_empty (s : String) :
    stripWhatifAll s ++ whatifSuffix ≠ "" := by
  intro h
  have hdata : ((stripWhatifAll s).data ++ whatifSuffix.data : List Char) = [] := by
    have := congrArg String.data h
    simpa [strData_append] using this
  have h2 : whatifSuffix.data = ([] : List Char) := (List.append_eq_nil.mp hdata).2
  exact absurd (congrArg List.length h2) (by decide)

/-- C1: setValue without an explicit source labels the injected value
with the current source of the path, stripped of all trailing
occurrences of the reserved suffix and with the suffix appended exactly
once; injecting again over the resulting label reproduces the same
label (idempotence); and when the tree reports no current source the
bare reserved label is stored.  A current source that the code treats
as absent is the falsy empty string, hence the nonemptiness hypothesis
on the reported label. -/
theorem c1_source_label_idempotent (S : String) (hS : S ≠ "") :
    deriveSourceLabel none (some S) = stripWhatifAll S ++ whatifSuffix
    ∧ deriveSourceLabel none (some (deriveSourceLabel none (some S)))
        = deriveSourceLabel none (some S)
    ∧ deriveSourceLabel none none = "whatif-helper" := by
  have h1 : deriveSourceLabel none (some S) = stripWhatifAll S ++ whatifSuffix := by
    simp [deriveSourceLabel, deriveSourceLabel.deriveAuto, hS]
  refine ⟨h1, ?_, rfl⟩
  rw [h1]
  have hne : stripWhatifAll S ++ whatifSuffix ≠ "" :=
    stripWhatifAll_append_suffix_ne_empty S
  simp only [deriveSourceLabel, deriveSourceLabel.deriveAuto, hne, if_false]
  rw [stripWhatifAll_append_suffix S]

/-- Witness for C1 at the concrete source label of the spec example. -/
theorem c1_source_label_idempotent_witness :
    ("n2k-01" : String) ≠ ""
    ∧ (deriveSourceLabel none (some "n2k-01") = stripWhatifAll "n2k-01" ++ whatifSuffix
       ∧ deriveSourceLabel none (some (deriveSourceLabel none (some "n2k-01")))
           = deriveSourceLabel none (some "n2k-01")
       ∧ deriveSourceLabel none none = "whatif-helper") :=
  ⟨by decide, c1_source_label_idempotent "n2k-01" (by decide)⟩

/-! ### Association-list lemmas for the manager maps -/

theorem mem_keys_iff_lookup_isSome {α : Type} (l : List (String × α)) (k : String) :
    k ∈ l.map (fun pr => pr.1) ↔ (l.lookup k).isSome = true := by
  rw [List.lookup_isSome_iff]
  simp only [List.mem_map, beq_iff_eq]
  constructor
  · rintro ⟨pr, hpr, he⟩
    exact ⟨pr, hpr, he.symm⟩
  · rintro ⟨pr, hpr, he⟩
    exact ⟨pr, hpr, he.symm⟩

theorem keys_eraseP {α : Type} (l : List (String × α)) (p : String) :
    (l.eraseP (fun pr => pr.1 == p)).map (fun pr => pr.1)
      = (l.map (fun pr => pr.1)).eraseP (fun k => k == p) := by
  induction l with
  | nil => rfl
  | cons hd tl ih =>
    by_cases h : hd.1 == p
    · simp [List.eraseP_cons, h]
    · simp [List.eraseP_cons, h, ih]

theorem lookup_eraseP_self {α : Type} (l : List (String × α)) (p : String)
    (h : (l.map (fun pr => pr.1)).Nodup) :
    (l.eraseP (fun pr => pr.1 == p)).lookup p = none := by
  induction l with
  | nil => rfl
  | cons hd tl ih =>
    obtain ⟨k, v⟩ := hd
    simp only [List.map_cons, List.nodup_cons] at h
    by_cases hk : k = p
    · subst hk
      rw [List.eraseP_cons_of_pos (by simp)]
      rw [List.lookup_eq_none_iff]
      intro q hq
      simp only [bne_iff_ne]
      intro hqe
      exact h.1 (hqe ▸ List.mem_map_of_mem (fun pr => pr.1) hq)
    · rw [List.eraseP_cons_of_neg (by simp [hk])]
      have hpk : (p == k) = false := beq_eq_false_iff_ne.mpr (fun he => hk he.symm)
      simp only [List.lookup_cons, hpk]
      exact ih h.2

theorem lookup_eraseP_ne {α : Type} (l : List (String × α)) (p q : String)
    (hq : q ≠ p) :
    (l.eraseP (fun pr => pr.1 == p)).lookup q = l.lookup q := by
  induction l with
  | nil => rfl
  | cons hd tl ih =>
    obtain ⟨k, v⟩ := hd
    by_cases hk : k = p
    · rw [List.eraseP_cons_of_pos (by simp [hk])]
      have hqk : (q == k) = false := beq_eq_false_iff_ne.mpr (fun he => hq (he.trans hk))
      simp only [List.lookup_cons, hqk]
    · rw [List.eraseP_cons_of_neg (by simp [hk])]
      by_cases hqk : q = k
      · simp [List.lookup_cons, hqk]
      · have hqk' : (q == k) = false := beq_eq_false_iff_ne.mpr hqk
        simp only [List.lookup_cons, hqk']
        exact ih

theorem length_filter_key_le_one {α : Type} (l : List (String × α)) (p : String)
    (h : (l.map (fun pr => pr.1)).Nodup) :
    (l.filter (fun pr => pr.1 == p)).length ≤ 1 := by
  induction l with
  | nil => simp
  | cons hd tl ih =>
    simp only [List.map_cons, List.nodup_cons] at h
    by_cases hk : hd.1 = p
    · rw [List.filter_cons_of_pos (by simp [hk])]
      have hnil : tl.filter (fun pr => pr.1 == p) = [] := by
        rw [List.filter_eq_nil_iff]
        intro q hq hqp
        apply h.1
        rw [hk]
        have : q.1 = p := by simpa using hqp
        exact this ▸ List.mem_map_of_mem (fun pr => pr.1) hq
      rw [hnil]
      simp
    · rw [List.filter_cons_of_neg (by simp [hk])]
      exact ih h.2

/-! ### PutHandlerManager invariant preservation -/

theorem phmInv_init : PHMInv initPHM :=
  ⟨rfl, List.nodup_nil, by intro pr hpr; simp [initPHM] at hpr⟩

theorem phmInv_register (s : PHMState) (p : String) (a : Option Bool)
    (now : String) (cap : Nat) (h : PHMInv s) :
    PHMInv (registerHandler s p a now cap) := by
  obtain ⟨hsync, hnodup, hpath⟩ := h
  unfold registerHandler
  by_cases hp : (s.handlers.lookup p).isSome = true
  · simp only [hp, if_true]
    exact ⟨hsync, hnodup, hpath⟩
  · have hnone : (s.handlers.lookup p).isSome = false := by
      cases hb : (s.handlers.lookup p).isSome
      · rfl
      · exact absurd hb hp
    simp only [hnone, Bool.false_eq_true, if_false]
    refine ⟨?_, ?_, ?_⟩
    · simp only [List.map_append, List.map_cons, List.map_nil]
      rw [hsync]
    · rw [List.map_append]
      rw [List.nodup_append]
      refine ⟨hnodup, by simp, ?_⟩
      intro x hx
      simp only [List.map_cons, List.map_nil, List.mem_singleton]
      intro he
      subst he
      exact hp ((mem_keys_iff_lookup_isSome s.handlers x).mp hx)
    · intro pr hpr
      rcases List.mem_append.mp hpr with h1 | h2
      · exact hpath pr h1
      · simp only [List.mem_singleton] at h2
        subst h2
        rfl

theorem phmInv_unregister (s : PHMState) (p : String) (h : PHMInv s) :
    PHMInv (unregisterHandler s p).1 := by
  obtain ⟨hsync, hnodup, hpath⟩ := h
  unfold unregisterHandler
  cases hcap : s.unregisterFunctions.lookup p with
  | none => exact ⟨hsync, hnodup, hpath⟩
  | some cap =>
    refine ⟨?_, ?_, ?_⟩
    · rw [keys_eraseP, keys_eraseP, hsync]
    · rw [keys_eraseP]
      exact hnodup.sublist (List.eraseP_sublist _)
    · intro pr hpr
      exact hpath pr ((List.eraseP_sublist _).subset hpr)

theorem phmInv_foldl_unreg (K : List String) :
    ∀ (s : PHMState), PHMInv s →
      PHMInv (K.foldl (fun st p => (unregisterHandler st p).1) s) := by
  induction K with
  | nil => intro s h; exact h
  | cons k K ih =>
    intro s h
    exact ih _ (phmInv_unregister s k h)

theorem phmInv_applyOp (s : PHMState) (op : PHMOp) (h : PHMInv s) :
    PHMInv (applyPHMOp s op) := by
  cases op with
  | reg p a now cap => exact phmInv_register s p a now cap h
  | unreg p => exact phmInv_unregister s p h
  | unregAll => exact phmInv_foldl_unreg _ s h

theorem phmInv_run (ops : List PHMOp) : PHMInv (runPHMOps ops) := by
  suffices h : ∀ (s : PHMState), PHMInv s → PHMInv (ops.foldl applyPHMOp s) from
    h initPHM phmInv_init
  induction ops with
  | nil => intro s h; exact h
  | cons op ops ih =>
    intro s h
    exact ih _ (phmInv_applyOp s op h)

theorem foldl_unreg_empties (K : List String) :
    ∀ (s : PHMState), PHMInv s → s.handlers.map (fun pr => pr.1) = K →
      (K.foldl (fun st p => (unregisterHandler st p).1) s).handlers = []
      ∧ (K.foldl (fun st p => (unregisterHandler st p).1) s).unregisterFunctions = [] := by
  induction K with
  | nil =>
    intro s h hk
    obtain ⟨hsync, _, _⟩ := h
    have h1 : s.handlers = [] := List.map_eq_nil_iff.mp hk
    have h2 : s.unregisterFunctions = [] := by
      have hkeys : s.unregisterFunctions.map (fun pr => pr.1) = [] := by
        rw [← hsync, hk]
      exact List.map_eq_nil_iff.mp hkeys
    exact ⟨h1, h2⟩
  | cons k K ih =>
    intro s h hk
    obtain ⟨hsync, hnodup, hpath⟩ := h
    have hmem : (s.unregisterFunctions.lookup k).isSome = true := by
      rw [← mem_keys_iff_lookup_isSome, ← hsync, hk]
      exact List.mem_cons_self k K
    obtain ⟨cap, hcap⟩ := Option.isSome_iff_exists.mp hmem
    rw [List.foldl_cons]
    have hstep : (unregisterHandler s k).1 =
        { handlers := s.handlers.eraseP (fun pr => pr.1 == k)
          unregisterFunctions := s.unregisterFunctions.eraseP (fun pr => pr.1 == k) } := by
      simp only [unregisterHandler, hcap]
    have hkeys' : (unregisterHandler s k).1.handlers.map (fun pr => pr.1) = K := by
      rw [hstep]
      show (s.handlers.eraseP (fun pr => pr.1 == k)).map (fun pr => pr.1) = K
      rw [keys_eraseP, hk, List.eraseP_cons_of_pos (by simp)]
    exact ih _ (phmInv_unregister s k ⟨hsync, hnodup, hpath⟩) hkeys'

theorem unregisterAll_empties (s : PHMState) (h : PHMInv s) :
    (unregisterAll s).handlers = [] ∧ (unregisterAll s).unregisterFunctions = [] := by
  unfold unregisterAll
  exact foldl_unreg_empties _ s h rfl

/-- C2: after any finite sequence of register/unregister/unregisterAll
calls at most one handler entry exists for any path, and a second
registration for an already-registered path leaves the entire state --
in particular the stored registeredAt timestamp and acceptAllSources
flag -- unchanged, regardless of the options, timestamp and capability
of the second call. -/
theorem c2_at_most_one_interceptor (ops : List PHMOp) (p : String)
    (s : PHMState) (a : Option Bool) (now : String) (cap : Nat)
    (h : (s.handlers.lookup p).isSome = true) :
    ((runPHMOps ops).handlers.filter (fun pr => pr.1 == p)).length ≤ 1
    ∧ registerHandler s p a now cap = s := by
  constructor
  · exact length_filter_key_le_one _ _ (phmInv_run ops).2.1
  · unfold registerHandler
    simp only [h, if_true]

/-- Witness for C2: a double registration for the same path, the second
with different options and timestamp, is a no-op. -/
theorem c2_at_most_one_interceptor_witness :
    ((runPHMOps [PHMOp.reg "a.b" none "t0" 0, PHMOp.reg "a.b" (some true) "t1" 1]).handlers.filter
        (fun pr => pr.1 == "a.b")).length ≤ 1
    ∧ registerHandler (registerHandler initPHM "a.b" none "t0" 0) "a.b" (some true) "t1" 1
        = registerHandler initPHM "a.b" none "t0" 0 :=
  c2_at_most_one_interceptor
    [PHMOp.reg "a.b" none "t0" 0, PHMOp.reg "a.b" (some true) "t1" 1]
    "a.b" (registerHandler initPHM "a.b" none "t0" 0) (some true) "t1" 1 (by decide)

/-- C9: in every reachable manager state the handler-info map and the
deregistration-capability map have the same key list, hasPutHandler
agrees with getHandler being defined and with membership among the
paths of getHandlers, and unregisterAll empties both maps -- in
particular it is a no-op on the fresh (empty) state. -/
theorem c9_maps_in_sync (ops : List PHMOp) (p : String) :
    (runPHMOps ops).handlers.map (fun pr => pr.1)
        = (runPHMOps ops).unregisterFunctions.map (fun pr => pr.1)
    ∧ hasPutHandler (runPHMOps ops) p = (getHandler (runPHMOps ops) p).isSome
    ∧ (hasPutHandler (runPHMOps ops) p = true ↔
        p ∈ (getHandlers (runPHMOps ops)).map (fun i => i.path))
    ∧ (unregisterAll (runPHMOps ops)).handlers = []
    ∧ (unregisterAll (runPHMOps ops)).unregisterFunctions = []
    ∧ unregisterAll initPHM = initPHM := by
  obtain ⟨hsync, hnodup, hpath⟩ := phmInv_run ops
  refine ⟨hsync, rfl, ?_, (unregisterAll_empties _ (phmInv_run ops)).1,
    (unregisterAll_empties _ (phmInv_run ops)).2, rfl⟩
  have hpaths : (getHandlers (runPHMOps ops)).map (fun i => i.path)
      = (runPHMOps ops).handlers.map (fun pr => pr.1) := by
    unfold getHandlers
    rw [List.map_map]
    exact List.map_congr_left (fun pr hpr => hpath pr hpr)
  rw [hpaths]
  exact (mem_keys_iff_lookup_isSome _ _).symm

/-- C8: unregistering a path with no registered interceptor returns
false and leaves the state untouched; unregistering a registered path
invokes exactly the stored deregistration capability, returns true,
removes both bookkeeping entries for the path, and leaves the entries
of every other path unchanged. -/
theorem c8_unregister_semantics (ops : List PHMOp) (p : String) :
    (hasPutHandler (runPHMOps ops) p = false →
       unregisterHandler (runPHMOps ops) p = ((runPHMOps ops), false, []))
    ∧ (∀ cap, (runPHMOps ops).unregisterFunctions.lookup p = some cap →
       unregisterHandler (runPHMOps ops) p =
         ({ handlers := (runPHMOps ops).handlers.eraseP (fun pr => pr.1 == p)
            unregisterFunctions :=
              (runPHMOps ops).unregisterFunctions.eraseP (fun pr => pr.1 == p) },
          true, [cap]))
    ∧ (hasPutHandler (runPHMOps ops) p = true →
       hasPutHandler (unregisterHandler (runPHMOps ops) p).1 p = false
       ∧ (unregisterHandler (runPHMOps ops) p).1.unregisterFunctions.lookup p = none)
    ∧ (∀ q, q ≠ p →
       (unregisterHandler (runPHMOps ops) p).1.handlers.lookup q
         = (runPHMOps ops).handlers.lookup q) := by
  obtain ⟨hsync, hnodup, hpath⟩ := phmInv_run ops
  refine ⟨?_, ?_, ?_, ?_⟩
  · intro hfalse
    have hnone : (runPHMOps ops).unregisterFunctions.lookup p = none := by
      cases hu : (runPHMOps ops).unregisterFunctions.lookup p with
      | none => rfl
      | some cap =>
        exfalso
        have hmem : p ∈ (runPHMOps ops).unregisterFunctions.map (fun pr => pr.1) :=
          (mem_keys_iff_lookup_isSome _ _).mpr (by rw [hu]; rfl)
        rw [← hsync] at hmem
        have := (mem_keys_iff_lookup_isSome _ _).mp hmem
        rw [hasPutHandler] at hfalse
        rw [hfalse] at this
        exact Bool.false_ne_true this
    simp only [unregisterHandler, hnone]
  · intro cap hcap
    simp only [unregisterHandler, hcap]
  · intro htrue
    have hu : (runPHMOps ops).unregisterFunctions.lookup p ≠ none := by
      intro hnone
      have hmem : p ∈ (runPHMOps ops).handlers.map (fun pr => pr.1) :=
        (mem_keys_iff_lookup_isSome _ _).mpr htrue
      rw [hsync, mem_keys_iff_lookup_isSome, hnone] at hmem
      exact Bool.false_ne_true hmem
    obtain ⟨cap, hcap⟩ := Option.ne_none_iff_exists'.mp hu
    constructor
    · show ((unregisterHandler (runPHMOps ops) p).1.handlers.lookup p).isSome = false
      simp only [unregisterHandler, hcap]
      rw [lookup_eraseP_self _ _ hnodup]
      rfl
    · simp only [unregisterHandler, hcap]
      exact lookup_eraseP_self _ _ (hsync ▸ hnodup)
  · intro q hq
    cases hu : (runPHMOps ops).unregisterFunctions.lookup p with
    | none => simp only [unregisterHandler, hu]
    | some cap =>
      simp only [unregisterHandler, hu]
      exact lookup_eraseP_ne _ _ _ hq

/-- Witness for C8: an unregistered path returns false without side
effect; a registered path is removed and its capability invoked. -/
theorem c8_unregister_semantics_witness :
    unregisterHandler (runPHMOps [PHMOp.reg "a.b" none "t0" 7]) "no.such.path"
      = (runPHMOps [PHMOp.reg "a.b" none "t0" 7], false, [])
    ∧ unregisterHandler (runPHMOps [PHMOp.reg "a.b" none "t0" 7]) "a.b"
      = ({ handlers :=
             (runPHMOps [PHMOp.reg "a.b" none "t0" 7]).handlers.eraseP
               (fun pr => pr.1 == "a.b")
           unregisterFunctions :=
             (runPHMOps [PHMOp.reg "a.b" none "t0" 7]).unregisterFunctions.eraseP
               (fun pr => pr.1 == "a.b") },
         true, [7]) :=
  ⟨(c8_unregister_semantics [PHMOp.reg "a.b" none "t0" 7] "no.such.path").1 (by decide),
   (c8_unregister_semantics [PHMOp.reg "a.b" none "t0" 7] "a.b").2.1 7 (by decide)⟩

/-- C3 (code bug): the PUT handler closure delegates the incoming
value to the injector at the invocation path and behaves identically
for any registration path (it never consults it), but because the
async `setValue` call is not awaited the try block always completes:
the handler returns COMPLETED/200 and passes exactly that result to
the host-provided callback EVEN WHEN the injector raises, whose
exception is left as an unhandled promise rejection -- the FAILED/500
report the claim (and the dead catch branch of the code itself)
describe is never produced for an injector failure. -/
theorem c3_put_handler_missing_await
    (inject : String → JSVal → Except JSException Unit)
    (regPath regPath' context putPath : String) (v : JSVal) (hasCallback : Bool) :
    (runPutHandler inject regPath context putPath v hasCallback).delegated = [(putPath, v)]
    ∧ runPutHandler inject regPath context putPath v hasCallback
        = runPutHandler inject regPath' context putPath v hasCallback
    ∧ (runPutHandler inject regPath context putPath v hasCallback).returned
        = { state := "COMPLETED", statusCode := 200, message := none }
    ∧ (runPutHandler inject regPath context putPath v hasCallback).callbackCalls
        = (if hasCallback then
             [{ state := "COMPLETED", statusCode := 200, message := none }]
           else [])
    ∧ (runPutHandler inject regPath context putPath v hasCallback).unhandledRejections
        = (match inject putPath v with
           | .ok _ => []
           | .error e => [e]) :=
  ⟨rfl, rfl, rfl, rfl, rfl⟩

/-- C10: createPath without metadata leaves the created-paths registry
untouched, so a path that was not previously registered stays
unregistered (isCreatedPath false, absent from getCreatedPaths), while
createPath with metadata always registers the path. -/
theorem c10_created_paths_registry (cp : List (String × List (String × JSVal)))
    (path : String) (value : JSVal)
    (h : isCreatedPath cp path = false) :
    createPath cp path value none = cp
    ∧ isCreatedPath (createPath cp path value none) path = false
    ∧ path ∉ getCreatedPaths (createPath cp path value none)
    ∧ ∀ m, isCreatedPath (createPath cp path value (some m)) path = true := by
  refine ⟨rfl, h, ?_, ?_⟩
  · show path ∉ cp.map (fun pr => pr.1)
    intro hmem
    have := (mem_keys_iff_lookup_isSome cp path).mp hmem
    rw [isCreatedPath] at h
    rw [h] at this
    exact Bool.false_ne_true this
  · intro m
    show ((mapSet cp path m).lookup path).isSome = true
    unfold mapSet
    rw [isCreatedPath] at h
    simp only [h, Bool.false_eq_true, if_false]
    rw [List.lookup_append]
    have hnone : cp.lookup path = none := by
      cases hc : cp.lookup path with
      | none => rfl
      | some x => rw [hc] at h; exact absurd h (by simp)
    rw [hnone]
    simp

/-- Witness for C10 on the empty registry. -/
theorem c10_created_paths_registry_witness :
    isCreatedPath ([] : List (String × List (String × JSVal))) "a.b" = false
    ∧ createPath [] "a.b" (JSVal.num 1) none = []
    ∧ isCreatedPath (createPath [] "a.b" (JSVal.num 1) none) "a.b" = false
    ∧ "a.b" ∉ getCreatedPaths (createPath [] "a.b" (JSVal.num 1) none)
    ∧ isCreatedPath
        (createPath [] "a.b" (JSVal.num 1) (some [("units", JSVal.str "m")])) "a.b" = true :=
  have h := c10_created_paths_registry [] "a.b" (JSVal.num 1) rfl
  ⟨rfl, h.1, h.2.1, h.2.2.1, h.2.2.2 [("units", JSVal.str "m")]⟩

/-! ### Broadcast fan-out -/

theorem broadcastTo_eq_filter_map (info : PathInfo) (p : String) (cs : List Client) :
    broadcastTo info p cs
      = (cs.filter (fun c =>
          (decide (p ∈ c.subscriptions) || decide ("*" ∈ c.subscriptions))
            && (c.readyState == WS_OPEN))).map
          (fun c => (c, WSUpdate.update info)) := by
  induction cs with
  | nil => rfl
  | cons c cs ih =>
    simp only [broadcastTo, List.filter_cons]
    by_cases hsub : p ∈ c.subscriptions ∨ "*" ∈ c.subscriptions
    · by_cases hopen : c.readyState = WS_OPEN
      · rcases hsub with h | h
        · simp [wsSend, h, hopen, ih]
        · simp [wsSend, h, hopen, ih]
      · rcases hsub with h | h
        · simp [wsSend, h, hopen, ih]
        · simp [wsSend, h, hopen, ih]
    · push_neg at hsub
      simp [hsub.1, hsub.2, ih]

/-- C4: a change event with a non-empty path is delivered as one
`update` message carrying the snapshot built from the event to exactly
the clients whose subscription set contains the exact path or the
wildcard and whose connection is OPEN; clients with an empty
subscription set never receive anything, and non-open connections are
skipped. -/
theorem c4_broadcast_fanout (cs : List Client) (delta : JSVal) (p : String)
    (hp : jsGetField delta "path" = JSVal.str p) (hne : p ≠ "") :
    handleDelta cs delta
      = (cs.filter (fun c =>
          (decide (p ∈ c.subscriptions) || decide ("*" ∈ c.subscriptions))
            && (c.readyState == WS_OPEN))).map
          (fun c => (c, WSUpdate.update (deltaPathInfo delta p)))
    ∧ ∀ c, c.subscriptions = [] → ∀ m, (c, m) ∉ handleDelta cs delta := by
  have hmain : handleDelta cs delta
      = (cs.filter (fun c =>
          (decide (p ∈ c.subscriptions) || decide ("*" ∈ c.subscriptions))
            && (c.readyState == WS_OPEN))).map
          (fun c => (c, WSUpdate.update (deltaPathInfo delta p))) := by
    unfold handleDelta
    rw [hp]
    show (if p = "" then [] else broadcastTo (deltaPathInfo delta p) p cs) = _
    rw [if_neg hne]
    exact broadcastTo_eq_filter_map _ _ _
  refine ⟨hmain, ?_⟩
  intro c hc m hmem
  rw [hmain] at hmem
  obtain ⟨c', hc', he⟩ := List.mem_map.mp hmem
  obtain ⟨hcs, hpred⟩ := List.mem_filter.mp hc'
  have hc'c : c' = c := congrArg Prod.fst he
  rw [hc'c, hc] at hpred
  simp at hpred

/-- Witness for C4: three observers (one subscribed and open, one
wildcard but not open, one open with empty subscriptions). -/
theorem c4_broadcast_fanout_witness :
    handleDelta
        [⟨"client-1", 1, ["a.b"]⟩, ⟨"client-2", 3, ["*"]⟩, ⟨"client-3", 1, []⟩]
        (JSVal.obj [("path", JSVal.str "a.b"), ("value", JSVal.num 5)])
      = ([⟨"client-1", 1, ["a.b"]⟩, ⟨"client-2", 3, ["*"]⟩,
          (⟨"client-3", 1, []⟩ : Client)].filter
          (fun c => (decide ("a.b" ∈ c.subscriptions) || decide ("*" ∈ c.subscriptions))
            && (c.readyState == WS_OPEN))).map
          (fun c => (c, WSUpdate.update (deltaPathInfo
            (JSVal.obj [("path", JSVal.str "a.b"), ("value", JSVal.num 5)]) "a.b")))
    ∧ ((⟨"client-3", 1, []⟩ : Client),
        WSUpdate.update (deltaPathInfo
          (JSVal.obj [("path", JSVal.str "a.b"), ("value", JSVal.num 5)]) "a.b"))
      ∉ handleDelta
          [⟨"client-1", 1, ["a.b"]⟩, ⟨"client-2", 3, ["*"]⟩, ⟨"client-3", 1, []⟩]
          (JSVal.obj [("path", JSVal.str "a.b"), ("value", JSVal.num 5)]) :=
  have h := c4_broadcast_fanout
    [⟨"client-1", 1, ["a.b"]⟩, ⟨"client-2", 3, ["*"]⟩, ⟨"client-3", 1, []⟩]
    (JSVal.obj [("path", JSVal.str "a.b"), ("value", JSVal.num 5)]) "a.b"
    rfl (by decide)
  ⟨h.1, h.2 ⟨"client-3", 1, []⟩ rfl _⟩

theorem stage_search (fs : Option String) (paths : List PathInfo) :
    (match fs with
     | some s =>
       if s = "" then paths
       else paths.filter (searchMatches (jsToLower s))
     | none => paths)
    = paths.filter (searchPred fs) := by
  rcases fs with _ | s
  · show paths = paths.filter (searchPred none)
    symm
    exact List.filter_eq_self.mpr (fun a _ => rfl)
  · show (if s = "" then paths else paths.filter (searchMatches (jsToLower s)))
      = paths.filter (searchPred (some s))
    by_cases hse : s = ""
    · subst hse
      rw [if_pos rfl]
      symm
      apply List.filter_eq_self.mpr
      intro a _
      show searchPred (some "") a = true
      show searchMatches (jsToLower "") a = true
      show jsIncludes (jsToLower a.path) (jsToLower "") = true
      show decide ((jsToLower "").data <:+: (jsToLower a.path).data) = true
      have hnil : (jsToLower "").data = ([] : List Char) := rfl
      rw [hnil]
      exact decide_eq_true List.nil_infix
    · rw [if_neg hse]
      rfl

theorem stage_hasValue (fv : Option Bool) (l : List PathInfo) :
    (if fv = some true then l.filter valueNotNil else l)
      = l.filter (hasValuePred fv) := by
  rcases fv with _ | b
  · rw [if_neg (by simp)]
    symm
    exact List.filter_eq_self.mpr (fun a _ => rfl)
  · cases b
    · rw [if_neg (by simp)]
      symm
      exact List.filter_eq_self.mpr (fun a _ => rfl)
    · rw [if_pos rfl]
      rfl

theorem stage_hasMeta (fm : Option Bool) (l : List PathInfo) :
    (if fm = some true then l.filter metaIsPresent else l)
      = l.filter (hasMetaPred fm) := by
  rcases fm with _ | b
  · rw [if_neg (by simp)]
    symm
    exact List.filter_eq_self.mpr (fun a _ => rfl)
  · cases b
    · rw [if_neg (by simp)]
      symm
      exact List.filter_eq_self.mpr (fun a _ => rfl)
    · rw [if_pos rfl]
      rfl

theorem applyFilters_eq_filter (f : PathFilter) (hb : f.baseUnit ≠ some "")
    (paths : List PathInfo) :
    applyFilters (some f) paths = paths.filter (fun x => matchesFilter f x) := by
  obtain ⟨fs, fv, fm, fb⟩ := f
  have hb' : fb ≠ some "" := hb
  rcases fb with _ | u
  · simp only [applyFilters]
    rw [stage_search fs paths]
    rw [stage_hasValue fv (paths.filter (searchPred fs))]
    rw [stage_hasMeta fm ((paths.filter (searchPred fs)).filter (hasValuePred fv))]
    rw [List.filter_filter, List.filter_filter]
    apply List.filter_congr
    intro x _
    show (hasMetaPred fm x && hasValuePred fv x && searchPred fs x)
        = matchesFilter ⟨fs, fv, fm, none⟩ x
    unfold matchesFilter
    show _ = (searchPred fs x && hasValuePred fv x && hasMetaPred fm x && baseUnitPred none x)
    have hbu : baseUnitPred none x = true := rfl
    rw [hbu]
    cases searchPred fs x <;> cases hasValuePred fv x <;> cases hasMetaPred fm x <;> rfl
  · have hu : u ≠ "" := fun he => hb' (by rw [he])
    simp only [applyFilters]
    rw [stage_search fs paths]
    rw [stage_hasValue fv (paths.filter (searchPred fs))]
    rw [stage_hasMeta fm ((paths.filter (searchPred fs)).filter (hasValuePred fv))]
    rw [if_neg hu]
    rw [List.filter_filter, List.filter_filter, List.filter_filter]
    apply List.filter_congr
    intro x _
    show (unitsEqual u x && hasMetaPred fm x && hasValuePred fv x && searchPred fs x)
        = matchesFilter ⟨fs, fv, fm, some u⟩ x
    unfold matchesFilter
    show (unitsEqual u x && hasMetaPred fm x && hasValuePred fv x && searchPred fs x)
        = (searchPred fs x && hasValuePred fv x && hasMetaPred fm x && unitsEqual u x)
    cases searchPred fs x <;> cases hasValuePred fv x <;> cases hasMetaPred fm x <;>
      cases unitsEqual u x <;> rfl

/-- C6: for every tree snapshot and filter, a snapshot is in the
filtered listing exactly when it is in the unfiltered listing and
satisfies every given predicate (search substring case-insensitively,
non-nil value, metadata present, exact base-unit match), and the
filtered listing is a permutation of the unfiltered listing restricted
to the conjunction of the predicates -- so composing filters is
intersecting their result sets.  A baseUnit filter holding the empty
string is falsy and never produced by the route layer, hence the
hypothesis. -/
theorem c6_filter_correctness (cp : List (String × List (String × JSVal)))
    (vesselData : JSVal) (f : PathFilter) (x : PathInfo)
    (hb : f.baseUnit ≠ some "") :
    (x ∈ getAllPaths cp vesselData (some f) ↔
      x ∈ getAllPaths cp vesselData none ∧ matchesFilter f x = true)
    ∧ List.Perm (getAllPaths cp vesselData (some f))
        ((getAllPaths cp vesselData none).filter (fun y => matchesFilter f y)) := by
  have hsome : getAllPaths cp vesselData (some f)
      = ((extractPaths cp vesselData "").filter
          (fun y => matchesFilter f y)).mergeSort pathLe := by
    unfold getAllPaths
    rw [applyFilters_eq_filter f hb]
  have hnone : getAllPaths cp vesselData none
      = (extractPaths cp vesselData "").mergeSort pathLe := rfl
  constructor
  · rw [hsome, hnone]
    rw [List.mem_mergeSort, List.mem_mergeSort, List.mem_filter]
  · rw [hsome, hnone]
    refine (List.mergeSort_perm _ _).trans ?_
    exact ((List.mergeSort_perm (extractPaths cp vesselData "") pathLe).filter
      (fun y => matchesFilter f y)).symm

/-- Witness for C6 over a two-leaf tree with a search and hasValue
filter. -/
theorem c6_filter_correctness_witness :
    ((⟨"a", JSVal.num 1, JSVal.undefined, JSVal.undefined, none⟩ : PathInfo)
        ∈ getAllPaths []
          (JSVal.obj [("a", JSVal.obj [("value", JSVal.num 1)]),
                      ("tanks", JSVal.obj [("value", JSVal.null)])])
          (some ⟨some "tank", some true, none, none⟩) ↔
      (⟨"a", JSVal.num 1, JSVal.undefined, JSVal.undefined, none⟩ : PathInfo)
        ∈ getAllPaths []
          (JSVal.obj [("a", JSVal.obj [("value", JSVal.num 1)]),
                      ("tanks", JSVal.obj [("value", JSVal.null)])]) none
      ∧ matchesFilter ⟨some "tank", some true, none, none⟩
          ⟨"a", JSVal.num 1, JSVal.undefined, JSVal.undefined, none⟩ = true)
    ∧ List.Perm
        (getAllPaths []
          (JSVal.obj [("a", JSVal.obj [("value", JSVal.num 1)]),
                      ("tanks", JSVal.obj [("value", JSVal.null)])])
          (some ⟨some "tank", some true, none, none⟩))
        ((getAllPaths []
          (JSVal.obj [("a", JSVal.obj [("value", JSVal.num 1)]),
                      ("tanks", JSVal.obj [("value", JSVal.null)])]) none).filter
          (fun y => matchesFilter ⟨some "tank", some true, none, none⟩ y)) :=
  c6_filter_correctness []
    (JSVal.obj [("a", JSVal.obj [("value", JSVal.num 1)]),
                ("tanks", JSVal.obj [("value", JSVal.null)])])
    ⟨some "tank", some true, none, none⟩
    ⟨"a", JSVal.num 1, JSVal.undefined, JSVal.undefined, none⟩ (by decide)

/-- The parametrized pipeline instantiated at the code-point stand-in
collation is the `getAllPaths` used elsewhere in this development. -/
theorem getAllPathsWith_pathLe (cp : List (String × List (String × JSVal)))
    (vd : JSVal) (f : Option PathFilter) :
    getAllPathsWith pathLe cp vd f = getAllPaths cp vd f := rfl

/-- C7 counterexample: under a legitimate host collation -- total,
transitive, and agreeing with the documented default-locale ICU
behaviour of localeCompare on the sibling paths "maximum" and
"maxSpeed" (primary weight of i before S) -- the listing the program
produces is NOT sorted in code-point lexicographic order by path. -/
theorem c7_lexicographic_counterexample :
    ¬ List.Pairwise (fun a b => pathLe a b = true)
        (getAllPathsWith caseFoldPathLe []
          (JSVal.obj [("maximum", JSVal.obj [("value", JSVal.num 2)]),
                      ("maxSpeed", JSVal.obj [("value", JSVal.num 1)])]) none) := by
  intro hpair
  have hext : applyFilters none (extractPaths []
      (JSVal.obj [("maximum", JSVal.obj [("value", JSVal.num 2)]),
                  ("maxSpeed", JSVal.obj [("value", JSVal.num 1)])]) "")
      = [⟨"maximum", JSVal.num 2, JSVal.undefined, JSVal.undefined, none⟩,
         ⟨"maxSpeed", JSVal.num 1, JSVal.undefined, JSVal.undefined, none⟩] := rfl
  have hAB : caseFoldPathLe
      ⟨"maximum", JSVal.num 2, JSVal.undefined, JSVal.undefined, none⟩
      ⟨"maxSpeed", JSVal.num 1, JSVal.undefined, JSVal.undefined, none⟩ = true := by
    unfold caseFoldPathLe
    apply decide_eq_true
    have h1 : jsToLower "maximum" = "maximum" := by decide
    have h2 : jsToLower "maxSpeed" = "maxspeed" := by decide
    show jsToLower "maximum" ≤ jsToLower "maxSpeed"
    rw [h1, h2, String.le_iff_toList_le]
    decide
  have hsorted : List.Pairwise (fun a b => caseFoldPathLe a b = true)
      [⟨"maximum", JSVal.num 2, JSVal.undefined, JSVal.undefined, none⟩,
       ⟨"maxSpeed", JSVal.num 1, JSVal.undefined, JSVal.undefined, none⟩] := by
    constructor
    · intro x hx
      rw [List.mem_singleton] at hx
      subst hx
      exact hAB
    · exact List.Pairwise.cons (fun y hy => absurd hy (List.not_mem_nil y))
        List.Pairwise.nil
  have hlist : getAllPathsWith caseFoldPathLe []
      (JSVal.obj [("maximum", JSVal.obj [("value", JSVal.num 2)]),
                  ("maxSpeed", JSVal.obj [("value", JSVal.num 1)])]) none
      = [⟨"maximum", JSVal.num 2, JSVal.undefined, JSVal.undefined, none⟩,
         ⟨"maxSpeed", JSVal.num 1, JSVal.undefined, JSVal.undefined, none⟩] := by
    unfold getAllPathsWith
    rw [hext]
    exact List.mergeSort_of_sorted hsorted
  rw [hlist] at hpair
  have hhead := (List.pairwise_cons.mp hpair).1
    ⟨"maxSpeed", JSVal.num 1, JSVal.undefined, JSVal.undefined, none⟩
    (List.mem_singleton.mpr rfl)
  have hfalse : pathLe
      ⟨"maximum", JSVal.num 2, JSVal.undefined, JSVal.undefined, none⟩
      ⟨"maxSpeed", JSVal.num 1, JSVal.undefined, JSVal.undefined, none⟩ = false := by
    unfold pathLe
    apply decide_eq_false
    intro hle
    rw [String.le_iff_toList_le] at hle
    exact absurd hle (by decide)
  rw [hhead] at hfalse
  exact absurd hfalse (by decide)

/-- C7 (amended): the listing pipeline sorts with the comparator the
code passes to the sort -- `a.path.localeCompare(b.path)`, the host
default-locale collation, an external input.  For every total and
transitive collation the returned sequence is sorted by that
collation, and two calls with identical registry, tree contents,
filter and collation yield the identical ordered output (the listing
is a deterministic function of those inputs); the order is the
collation's own, not necessarily code-point lexicographic. -/
theorem c7_sorted_by_collation_and_deterministic
    (localeLe : PathInfo → PathInfo → Bool)
    (htrans : ∀ a b c, localeLe a b = true → localeLe b c = true → localeLe a c = true)
    (htotal : ∀ a b, (localeLe a b || localeLe b a) = true)
    (cp cp' : List (String × List (String × JSVal)))
    (vd vd' : JSVal) (f f' : Option PathFilter)
    (hcp : cp = cp') (hvd : vd = vd') (hf : f = f') :
    List.Pairwise (fun a b => localeLe a b = true)
      (getAllPathsWith localeLe cp vd f)
    ∧ getAllPathsWith localeLe cp vd f = getAllPathsWith localeLe cp' vd' f' := by
  constructor
  · unfold getAllPathsWith
    exact List.sorted_mergeSort htrans htotal _
  · rw [hcp, hvd, hf]

/-- Witness for C7 at the code-point collation over a concrete tree. -/
theorem c7_sorted_by_collation_and_deterministic_witness :
    List.Pairwise (fun a b => pathLe a b = true)
      (getAllPathsWith pathLe []
        (JSVal.obj [("b", JSVal.obj [("value", JSVal.num 2)]),
                    ("a", JSVal.obj [("value", JSVal.num 1)])]) none)
    ∧ getAllPathsWith pathLe []
        (JSVal.obj [("b", JSVal.obj [("value", JSVal.num 2)]),
                    ("a", JSVal.obj [("value", JSVal.num 1)])]) none
      = getAllPathsWith pathLe []
          (JSVal.obj [("b", JSVal.obj [("value", JSVal.num 2)]),
                      ("a", JSVal.obj [("value", JSVal.num 1)])]) none :=
  c7_sorted_by_collation_and_deterministic pathLe
    (fun a b c hab hbc =>
      decide_eq_true (le_trans (of_decide_eq_true hab) (of_decide_eq_true hbc)))
    (fun a b => by
      rcases le_total a.path b.path with h | h
      · have hx : pathLe a b = true := decide_eq_true h
        rw [hx]
        rfl
      · have hx : pathLe b a = true := decide_eq_true h
        rw [hx]
        simp)
    [] []
    (JSVal.obj [("b", JSVal.obj [("value", JSVal.num 2)]),
                ("a", JSVal.obj [("value", JSVal.num 1)])])
    (JSVal.obj [("b", JSVal.obj [("value", JSVal.num 2)]),
                ("a", JSVal.obj [("value", JSVal.num 1)])])
    none none rfl rfl rfl
